import Mathlib

/-!
Verification of the HealthCare-Assistant retrieval and ranking engine.

The development shallowly embeds the two core source files:

* `src/create_faiss.py` — the offline index builder: it expands every
  disease record into one to four textual "views", keeps a metadata entry
  per view, encodes every view, and stores the three parallel tables.
* `src/diagnosis.py` — the online diagnosis engine: it loads the three
  tables, runs an exact L2 nearest-neighbour search, converts distances
  to confidences, deduplicates by disease name, sorts by confidence,
  caps at 95 and assembles the final diagnoses.

Numeric conventions: float distances and confidences are modelled by `ℚ`;
FAISS result indices by `ℤ` (FAISS pads missing results with index `-1`
and distance `FLT_MAX`, which the model reproduces, together with
Python's negative-index list semantics).  The embedding encoder is an
opaque parameter `String → List ℚ`, as the spec treats it as external.
-/

namespace HealthAssist

/-- A validated disease record, as produced by `parse_health_file`
(`src/create_faiss.py`, lines 61-74): a non-empty name plus three lists.
The same shape is used for the metadata entries built at lines 153-158. -/
structure DiseaseRecord where
  disease : String
  symptoms : List String
  medicines : List String
  precautions : List String
  deriving DecidableEq, Repr

/-- The comprehensive document view (`create_faiss.py`, lines 123-133):
labeled sections joined by ". ", each auxiliary section present only when
its list is non-empty, with a final period. -/
def comprehensiveDoc (r : DiseaseRecord) : String :=
  String.intercalate (". ")
    ([("DISEASE: ") ++ r.disease]
      ++ (if r.symptoms = [] then []
          else [("SYMPTOMS: ") ++ String.intercalate (", ") r.symptoms])
      ++ (if r.medicines = [] then []
          else [("MEDICINES: ") ++ String.intercalate (", ") r.medicines])
      ++ (if r.precautions = [] then []
          else [("PRECAUTIONS: ") ++ String.intercalate (", ") r.precautions]))
    ++ (".")

/-- The symptom-focused view (`create_faiss.py`, line 137). -/
def symptomsDoc (r : DiseaseRecord) : String :=
  r.disease ++ (" SYMPTOMS: ") ++ String.intercalate (", ") r.symptoms
    ++ (". Common signs include ") ++ String.intercalate (", ") (r.symptoms.take 3) ++ (".")

/-- The treatment-focused view (`create_faiss.py`, line 142). -/
def treatmentDoc (r : DiseaseRecord) : String :=
  r.disease ++ (" TREATMENT: Medications include ")
    ++ String.intercalate (", ") (r.medicines.take 3) ++ (". ")
    ++ String.intercalate (", ") (r.medicines.take 2) ++ (" are commonly prescribed.")

/-- The prevention-focused view (`create_faiss.py`, line 147). -/
def preventionDoc (r : DiseaseRecord) : String :=
  r.disease ++ (" PREVENTION: ") ++ String.intercalate (", ") (r.precautions.take 3)
    ++ (". Recommended precautions: ") ++ String.intercalate (", ") (r.precautions.take 2)
    ++ (".")

/-- The ordered document variations emitted for one record
(`create_faiss.py`, lines 120-148): always the comprehensive view first,
then the focused views, each guarded by non-emptiness of its list. -/
def doc_variations (r : DiseaseRecord) : List String :=
  [comprehensiveDoc r]
    ++ (if r.symptoms = [] then [] else [symptomsDoc r])
    ++ (if r.medicines = [] then [] else [treatmentDoc r])
    ++ (if r.precautions = [] then [] else [preventionDoc r])

/-- Model of `create_knowledge_base` (`create_faiss.py`, lines 92-169):
for each record append every document variation together with one
metadata copy of the record; with no records it returns the pair of
empty tables. -/
def create_knowledge_base (disease_data : List DiseaseRecord) :
    List String × List DiseaseRecord :=
  if disease_data = [] then ([], [])
  else
    (disease_data.flatMap (fun r => doc_variations r),
     disease_data.flatMap (fun r => (doc_variations r).map (fun _ => r)))

/-- The persisted artifacts of a successful build: the FAISS vector table,
the document table (`docs.pkl`) and the metadata table (`metadata.pkl`),
three parallel lists joined only by position. -/
structure IndexStore where
  vectors : List (List ℚ)
  documents : List String
  metadata : List DiseaseRecord
  deriving DecidableEq, Repr

/-- Model of `create_faiss_index` (`create_faiss.py`, lines 171-235):
build the knowledge base, bail out with the untyped failure value
(`return False`, modelled `none`) when no documents were produced,
otherwise encode every document (one vector per document) and store the
three parallel tables. -/
def create_faiss_index (encode : String → List ℚ) (records : List DiseaseRecord) :
    Option IndexStore :=
  let kb := create_knowledge_base records
  if kb.1 = [] then none
  else some { vectors := kb.1.map encode, documents := kb.1, metadata := kb.2 }

/-- FAISS pads result slots beyond the number of stored vectors with
distance `FLT_MAX` and index `-1`; `fltMax` is the exact value of
`FLT_MAX` (2^128 - 2^104). -/
def fltMax : ℚ := 340282346638528859811704183484516925440

/-- Squared Euclidean (L2) distance, the metric of `faiss.IndexFlatL2`. -/
def l2sq (u v : List ℚ) : ℚ := (List.zipWith (fun a b => (a - b) * (a - b)) u v).sum

/-- Insert one (distance, index) pair into a sorted list, ascending by
distance with ties broken by the lower original index. -/
def insertPair (p : ℚ × ℤ) : List (ℚ × ℤ) → List (ℚ × ℤ)
  | [] => [p]
  | x :: xs =>
    if p.1 < x.1 ∨ (p.1 = x.1 ∧ p.2 ≤ x.2) then p :: x :: xs else x :: insertPair p xs

/-- Sort (distance, index) pairs ascending by distance, ties by index. -/
def sortPairs : List (ℚ × ℤ) → List (ℚ × ℤ)
  | [] => []
  | p :: ps => insertPair p (sortPairs ps)

/-- Model of `faiss.IndexFlatL2.search` for a single query: the `k`
nearest stored vectors as (squared L2 distance, index) pairs ascending by
distance, padded with `(FLT_MAX, -1)` slots when fewer than `k` vectors
are stored. -/
def faissSearch (vectors : List (List ℚ)) (queryVec : List ℚ) (k : ℕ) : List (ℚ × ℤ) :=
  (sortPairs (vectors.enum.map (fun p => (l2sq queryVec p.2, (p.1 : ℤ))))).take k
    ++ List.replicate (k - vectors.length) (fltMax, -1)

/-- Python list indexing: a negative index counts from the end once; an
out-of-range access raises an IndexError, modelled `none`. -/
def pyIndex {α : Type} (l : List α) (i : ℤ) : Option α :=
  if 0 ≤ i then l.get? i.toNat
  else if 0 ≤ i + l.length then l.get? (i + l.length).toNat
  else none

/-- A transient search hit (`diagnosis.py`, lines 48-53). -/
structure SearchHit where
  disease : String
  symptoms : List String
  confidence : ℚ
  distance : ℚ
  deriving DecidableEq, Repr

/-- The distance-to-confidence calibration of `diagnosis.py`, line 51:
the Python expression `max(0, 100 - d * 20)`. -/
def hitConfidence (d : ℚ) : ℚ := max 0 (100 - d * 20)

/-- The result loop of `search_similar_diseases` (`diagnosis.py`, lines
44-53): for each returned pair, when the guard `idx < len(metadata)`
holds look the entry up with Python indexing (an out-of-range access
raises an IndexError, modelled `Except.error ()`) and build a hit; slots
failing the guard are skipped. -/
def collectHits (metadata : List DiseaseRecord) : List (ℚ × ℤ) → Except Unit (List SearchHit)
  | [] => Except.ok []
  | p :: rest =>
    if p.2 < (metadata.length : ℤ) then
      match pyIndex metadata p.2 with
      | none => Except.error ()
      | some m =>
        match collectHits metadata rest with
        | Except.error e => Except.error e
        | Except.ok hs =>
          Except.ok ({ disease := m.disease, symptoms := m.symptoms,
                       confidence := hitConfidence p.1, distance := p.1 } :: hs)
    else collectHits metadata rest

/-- Model of `search_similar_diseases` (`diagnosis.py`, lines 39-55),
with the opaque encoder factored out: the query vector is passed
directly. -/
def search_similar_diseases (vectors : List (List ℚ)) (metadata : List DiseaseRecord)
    (queryVec : List ℚ) (top_k : ℕ) : Except Unit (List SearchHit) :=
  collectHits metadata (faissSearch vectors queryVec top_k)

/-- Model of `get_complete_disease_info` (`diagnosis.py`, lines 32-37):
linear scan for the first metadata entry whose name matches
case-insensitively. -/
def get_complete_disease_info (metadata : List DiseaseRecord) (disease_name : String) :
    Option DiseaseRecord :=
  metadata.find? (fun meta => meta.disease.toLower == disease_name.toLower)

/-- One step of the dict-based dedup loop (`diagnosis.py`, lines 63-67):
if the name is present keep the entry of higher confidence in place
(strictly higher replaces), otherwise append at the end, matching Python
dict insertion-order semantics. -/
def dedupInsert : List SearchHit → SearchHit → List SearchHit
  | [], h => [h]
  | x :: xs, h =>
    if x.disease = h.disease then
      (if h.confidence > x.confidence then h else x) :: xs
    else x :: dedupInsert xs h

/-- The dedup pass over all hits (`diagnosis.py`, lines 63-67). -/
def dedup (l : List SearchHit) : List SearchHit := l.foldl dedupInsert []

/-- Stable insert for the descending sort: an element is placed before
the first element of confidence not above its own, so that earlier input
elements precede equal-confidence later ones. -/
def insertDesc (h : SearchHit) : List SearchHit → List SearchHit
  | [] => [h]
  | x :: xs => if x.confidence ≤ h.confidence then h :: x :: xs else x :: insertDesc h xs

/-- The stable sort by confidence descending modelling Python's stable
reverse sort by confidence (`diagnosis.py`, lines 70-74). -/
def sortDesc : List SearchHit → List SearchHit
  | [] => []
  | x :: xs => insertDesc x (sortDesc xs)

/-- The safety cap of `diagnosis.py`, line 86: the Python expression
`min(95, confidence)`. -/
def cappedConfidence (c : ℚ) : ℚ := min 95 c

/-- The final externally visible unit (`diagnosis.py`, lines 81-87). -/
structure Diagnosis where
  disease : String
  symptoms : List String
  medicines : List String
  precautions : List String
  confidence : ℚ
  deriving DecidableEq, Repr

/-- Model of `diagnose` (`diagnosis.py`, lines 57-89): search, dedup,
stable sort by confidence descending, take the top 3, look each name up
in the metadata table (skipping silently when the lookup fails) and cap
the confidence at 95. -/
def diagnose (vectors : List (List ℚ)) (metadata : List DiseaseRecord)
    (queryVec : List ℚ) (top_k : ℕ) : Except Unit (List Diagnosis) :=
  match search_similar_diseases vectors metadata queryVec top_k with
  | Except.error e => Except.error e
  | Except.ok similar_diseases =>
    let unique_diseases := dedup similar_diseases
    let sorted_diseases := sortDesc unique_diseases
    Except.ok ((sorted_diseases.take 3).filterMap (fun di =>
      (get_complete_disease_info metadata di.disease).map (fun ci =>
        { disease := ci.disease, symptoms := ci.symptoms, medicines := ci.medicines,
          precautions := ci.precautions, confidence := cappedConfidence di.confidence })))

/-- The on-disk state seen by `load_faiss_index`: whether the base folder
exists, and the content of each of the three artifact files (`none`
models a missing or unreadable file). -/
structure DiskStore where
  folderExists : Bool
  indexFile : Option (List (List ℚ))
  docsFile : Option (List String)
  metadataFile : Option (List DiseaseRecord)
  deriving DecidableEq, Repr

/-- The failures `load_faiss_index` can raise: the explicit
FileNotFoundError for a missing base folder (`diagnosis.py`, lines
16-17), and the untyped i/o errors that reading a missing artifact file
raises. -/
inductive LoadError where
  | folderNotFound
  | fileReadError
  deriving DecidableEq, Repr

/-- Model of `load_faiss_index` (`diagnosis.py`, lines 14-30): fail when
the base folder is missing, then read the three artifacts; any missing
file is an untyped read error.  No consistency check between the three
tables is performed. -/
def load_faiss_index (s : DiskStore) : Except LoadError IndexStore :=
  if s.folderExists = false then Except.error LoadError.folderNotFound
  else
    match s.indexFile, s.docsFile, s.metadataFile with
    | some v, some d, some m => Except.ok { vectors := v, documents := d, metadata := m }
    | _, _, _ => Except.error LoadError.fileReadError

/-- A concrete record used by witnesses and counterexamples. -/
def fluRecord : DiseaseRecord :=
  { disease := "Flu", symptoms := ["fever"], medicines := ["Paracetamol"],
    precautions := ["Rest"] }

/-- A record whose name differs from the name of `fluRecord` only in
letter case, with different auxiliary fields. -/
def fluUpper : DiseaseRecord :=
  { disease := "FLU", symptoms := ["ache"], medicines := ["Ibuprofen"],
    precautions := ["Sleep"] }

/-- A record with empty auxiliary lists, used by the build witnesses. -/
def emptyFlu : DiseaseRecord :=
  { disease := "Flu", symptoms := [], medicines := [], precautions := [] }

/-- A trivial concrete encoder for witnesses. -/
def encode0 : String → List ℚ := fun _ => [0]

/-- The store built from the single record `emptyFlu` under `encode0`. -/
def store0 : IndexStore :=
  { vectors := [[0]], documents := ["DISEASE: Flu."], metadata := [emptyFlu] }

/-- A disk store whose three tables have pairwise different sizes. -/
def inconsistentStore : DiskStore :=
  { folderExists := true, indexFile := some [[0], [1]], docsFile := some ["a"],
    metadataFile := some [] }

/-- A disk store with no base folder. -/
def emptyDisk : DiskStore :=
  { folderExists := false, indexFile := none, docsFile := none, metadataFile := none }

/-- A disk store with a base folder but no artifact files. -/
def folderOnlyDisk : DiskStore :=
  { folderExists := true, indexFile := none, docsFile := none, metadataFile := none }

/-- A disk store with all three artifact files present and empty. -/
def emptyTablesDisk : DiskStore :=
  { folderExists := true, indexFile := some [], docsFile := some [], metadataFile := some [] }

/-- A hit with confidence 80 for the dedup example of the spec. -/
def hit80 : SearchHit := { disease := "Flu", symptoms := [], confidence := 80, distance := 1 }

/-- A hit for the same disease with confidence 40. -/
def hit40 : SearchHit := { disease := "Flu", symptoms := [], confidence := 40, distance := 3 }

/-- The hit produced at distance 0 for `fluRecord`. -/
def hit100 : SearchHit :=
  { disease := "Flu", symptoms := ["fever"], confidence := 100, distance := 0 }

/-- The phantom hit that FAISS padding produces from `fluRecord`. -/
def phantomHit : SearchHit :=
  { disease := "Flu", symptoms := ["fever"], confidence := 0, distance := fltMax }

/-- The capped diagnosis built from `fluRecord` at distance 0. -/
def diag95 : Diagnosis :=
  { disease := "Flu", symptoms := ["fever"], medicines := ["Paracetamol"],
    precautions := ["Rest"], confidence := 95 }

/-- The diagnosis built from `fluRecord` at distance 1. -/
def diag80 : Diagnosis :=
  { disease := "Flu", symptoms := ["fever"], medicines := ["Paracetamol"],
    precautions := ["Rest"], confidence := 80 }

/-- The phantom diagnosis built from `fluRecord` with confidence 0. -/
def diag0 : Diagnosis :=
  { disease := "Flu", symptoms := ["fever"], medicines := ["Paracetamol"],
    precautions := ["Rest"], confidence := 0 }

theorem doc_variations_ne_nil (r : DiseaseRecord) : doc_variations r ≠ [] := by
  simp [doc_variations]

theorem mem_insertDesc (x h : SearchHit) : ∀ (l : List SearchHit),
    x ∈ insertDesc h l ↔ x = h ∨ x ∈ l
  | [] => by simp [insertDesc]
  | a :: as => by
    simp only [insertDesc]
    split
    · simp [List.mem_cons]
    · rw [List.mem_cons, mem_insertDesc x h as, List.mem_cons]
      tauto

theorem pairwise_insertDesc (h : SearchHit) (l : List SearchHit)
    (hl : l.Pairwise (fun a b => b.confidence ≤ a.confidence)) :
    (insertDesc h l).Pairwise (fun a b => b.confidence ≤ a.confidence) := by
  induction l with
  | nil => simp [insertDesc]
  | cons a as ih =>
    rw [List.pairwise_cons] at hl
    simp only [insertDesc]
    split
    · rename_i hle
      refine List.Pairwise.cons ?_ (List.Pairwise.cons hl.1 hl.2)
      intro b hb
      rcases List.mem_cons.mp hb with rfl | hb
      · exact hle
      · exact le_trans (hl.1 b hb) hle
    · rename_i hgt
      push_neg at hgt
      refine List.Pairwise.cons ?_ (ih hl.2)
      intro b hb
      rcases (mem_insertDesc b h as).mp hb with rfl | hb
      · exact le_of_lt hgt
      · exact hl.1 b hb

theorem pairwise_sortDesc : ∀ l : List SearchHit,
    (sortDesc l).Pairwise (fun a b => b.confidence ≤ a.confidence)
  | [] => by simp [sortDesc]
  | a :: as => by
    simp only [sortDesc]
    exact pairwise_insertDesc a _ (pairwise_sortDesc as)

theorem perm_insertDesc (h : SearchHit) : ∀ l : List SearchHit, (insertDesc h l).Perm (h :: l)
  | [] => by simp [insertDesc]
  | a :: as => by
    simp only [insertDesc]
    split
    · exact List.Perm.refl _
    · exact ((perm_insertDesc h as).cons a).trans (List.Perm.swap h a as)

theorem perm_sortDesc : ∀ l : List SearchHit, (sortDesc l).Perm l
  | [] => List.Perm.refl _
  | a :: as => by
    simp only [sortDesc]
    exact (perm_insertDesc a (sortDesc as)).trans ((perm_sortDesc as).cons a)

theorem filter_insertDesc (h : SearchHit) (c : ℚ) : ∀ (l : List SearchHit),
    (insertDesc h l).filter (fun x => decide (x.confidence = c)) =
      if h.confidence = c then h :: l.filter (fun x => decide (x.confidence = c))
      else l.filter (fun x => decide (x.confidence = c))
  | [] => by
    by_cases hc : h.confidence = c <;> simp [insertDesc, List.filter_cons, hc]
  | a :: as => by
    simp only [insertDesc]
    split
    · rename_i hle
      by_cases hc : h.confidence = c <;> simp [List.filter_cons, hc]
    · rename_i hgt
      push_neg at hgt
      by_cases hc : h.confidence = c
      · by_cases hac : a.confidence = c
        · exact absurd (hac.trans hc.symm) (ne_of_gt hgt)
        · simp [List.filter_cons, hc, hac, filter_insertDesc h c as]
      · simp [List.filter_cons, hc, filter_insertDesc h c as]

theorem filter_sortDesc (c : ℚ) : ∀ (l : List SearchHit),
    (sortDesc l).filter (fun x => decide (x.confidence = c)) =
      l.filter (fun x => decide (x.confidence = c))
  | [] => rfl
  | a :: as => by
    simp only [sortDesc, filter_insertDesc a c (sortDesc as), filter_sortDesc c as,
      List.filter_cons]
    by_cases hac : a.confidence = c <;> simp [hac]

theorem mem_dedupInsert (x h : SearchHit) : ∀ (acc : List SearchHit),
    x ∈ dedupInsert acc h → x ∈ acc ∨ x = h
  | [] => by simp [dedupInsert]
  | a :: as => by
    simp only [dedupInsert]
    split
    · split
      · intro hx
        rcases List.mem_cons.mp hx with rfl | hx
        · exact Or.inr rfl
        · exact Or.inl (List.mem_cons_of_mem a hx)
      · intro hx
        exact Or.inl hx
    · intro hx
      rcases List.mem_cons.mp hx with rfl | hx
      · exact Or.inl (List.mem_cons_self x as)
      · rcases mem_dedupInsert x h as hx with h1 | h1
        · exact Or.inl (List.mem_cons_of_mem a h1)
        · exact Or.inr h1

theorem mem_foldl_dedupInsert (x : SearchHit) : ∀ (l acc : List SearchHit),
    x ∈ l.foldl dedupInsert acc → x ∈ acc ∨ x ∈ l
  | [], acc => by simp
  | h :: t, acc => by
    intro hx
    simp only [List.foldl_cons] at hx
    rcases mem_foldl_dedupInsert x t (dedupInsert acc h) hx with h1 | h1
    · rcases mem_dedupInsert x h acc h1 with h2 | h2
      · exact Or.inl h2
      · exact Or.inr (by rw [h2]; exact List.mem_cons_self h t)
    · exact Or.inr (List.mem_cons_of_mem h h1)

theorem dedupInsert_map_disease (h : SearchHit) : ∀ (acc : List SearchHit),
    (dedupInsert acc h).map (fun x => x.disease) =
      if h.disease ∈ acc.map (fun x => x.disease) then acc.map (fun x => x.disease)
      else acc.map (fun x => x.disease) ++ [h.disease]
  | [] => by simp [dedupInsert]
  | a :: as => by
    simp only [dedupInsert]
    split
    · rename_i hd
      have hhead : (if h.confidence > a.confidence then h else a).disease = a.disease := by
        split
        · exact hd.symm
        · rfl
      rw [List.map_cons, List.map_cons, hhead, if_pos]
      exact List.mem_cons.mpr (Or.inl hd.symm)
    · rename_i hd
      rw [List.map_cons, List.map_cons, dedupInsert_map_disease h as]
      by_cases hm : h.disease ∈ as.map (fun x => x.disease)
      · rw [if_pos hm, if_pos]
        exact List.mem_cons_of_mem _ hm
      · rw [if_neg hm, if_neg]
        · simp
        · intro hc
          rcases List.mem_cons.mp hc with h1 | h1
          · exact hd h1.symm
          · exact hm h1

theorem nodup_dedupInsert (h : SearchHit) (acc : List SearchHit)
    (hacc : (acc.map (fun x => x.disease)).Nodup) :
    ((dedupInsert acc h).map (fun x => x.disease)).Nodup := by
  rw [dedupInsert_map_disease]
  split
  · exact hacc
  · rename_i hm
    simp [List.nodup_append, hacc, hm]

theorem nodup_foldl_dedupInsert : ∀ (l acc : List SearchHit),
    (acc.map (fun x => x.disease)).Nodup →
    ((l.foldl dedupInsert acc).map (fun x => x.disease)).Nodup
  | [], _ => fun hacc => hacc
  | h :: t, acc => fun hacc => by
    simp only [List.foldl_cons]
    exact nodup_foldl_dedupInsert t (dedupInsert acc h) (nodup_dedupInsert h acc hacc)

theorem dedupInsert_covers_old (h : SearchHit) : ∀ (acc : List SearchHit) (a : SearchHit),
    a ∈ acc → ∃ x ∈ dedupInsert acc h, x.disease = a.disease ∧ a.confidence ≤ x.confidence
  | [], a => by simp
  | b :: bs, a => by
    intro ha
    simp only [dedupInsert]
    split
    · rename_i hd
      rcases List.mem_cons.mp ha with rfl | ha
      · split
        · rename_i hconf
          exact ⟨h, List.mem_cons_self h bs, hd.symm, le_of_lt hconf⟩
        · exact ⟨a, List.mem_cons_self a bs, rfl, le_refl _⟩
      · exact ⟨a, List.mem_cons_of_mem _ ha, rfl, le_refl _⟩
    · rename_i hd
      rcases List.mem_cons.mp ha with rfl | ha
      · exact ⟨a, List.mem_cons_self a _, rfl, le_refl _⟩
      · obtain ⟨x, hx, hxd, hxc⟩ := dedupInsert_covers_old h bs a ha
        exact ⟨x, List.mem_cons_of_mem b hx, hxd, hxc⟩

theorem dedupInsert_covers_new (h : SearchHit) : ∀ (acc : List SearchHit),
    ∃ x ∈ dedupInsert acc h, x.disease = h.disease ∧ h.confidence ≤ x.confidence
  | [] => ⟨h, by simp [dedupInsert]⟩
  | b :: bs => by
    simp only [dedupInsert]
    split
    · rename_i hd
      split
      · exact ⟨h, List.mem_cons_self _ _, rfl, le_refl _⟩
      · rename_i hconf
        push_neg at hconf
        exact ⟨b, List.mem_cons_self _ _, hd, hconf⟩
    · rename_i hd
      obtain ⟨x, hx, hxd, hxc⟩ := dedupInsert_covers_new h bs
      exact ⟨x, List.mem_cons_of_mem b hx, hxd, hxc⟩

theorem foldl_covers_acc : ∀ (l acc : List SearchHit) (a : SearchHit), a ∈ acc →
    ∃ x ∈ l.foldl dedupInsert acc, x.disease = a.disease ∧ a.confidence ≤ x.confidence
  | [], _, a => fun ha => ⟨a, ha, rfl, le_refl _⟩
  | h :: t, acc, a => fun ha => by
    simp only [List.foldl_cons]
    obtain ⟨x1, hx1, hd1, hc1⟩ := dedupInsert_covers_old h acc a ha
    obtain ⟨x2, hx2, hd2, hc2⟩ := foldl_covers_acc t (dedupInsert acc h) x1 hx1
    exact ⟨x2, hx2, hd2.trans hd1, le_trans hc1 hc2⟩

theorem foldl_covers_mem : ∀ (l acc : List SearchHit) (g : SearchHit), g ∈ l →
    ∃ x ∈ l.foldl dedupInsert acc, x.disease = g.disease ∧ g.confidence ≤ x.confidence
  | [], _, g => by simp
  | h :: t, acc, g => fun hg => by
    simp only [List.foldl_cons]
    rcases List.mem_cons.mp hg with rfl | hg
    · obtain ⟨x1, hx1, hd1, hc1⟩ := dedupInsert_covers_new g acc
      obtain ⟨x2, hx2, hd2, hc2⟩ := foldl_covers_acc t (dedupInsert acc g) x1 hx1
      exact ⟨x2, hx2, hd2.trans hd1, le_trans hc1 hc2⟩
    · exact foldl_covers_mem t (dedupInsert acc h) g hg

theorem hitConfidence_nonneg (d : ℚ) : 0 ≤ hitConfidence d := le_max_left 0 _

theorem collectHits_ok_confidence (metadata : List DiseaseRecord) :
    ∀ (ps : List (ℚ × ℤ)) (hs : List SearchHit), collectHits metadata ps = Except.ok hs →
      ∀ h ∈ hs, h.confidence = hitConfidence h.distance
  | [], hs => by
    intro hok h hh
    simp only [collectHits] at hok
    cases hok
    simp at hh
  | p :: rest, hs => by
    intro hok h hh
    simp only [collectHits] at hok
    split at hok
    · split at hok
      · cases hok
      · split at hok
        · cases hok
        · rename_i m _ hs' hrec
          cases hok
          rcases List.mem_cons.mp hh with rfl | hh
          · rfl
          · exact collectHits_ok_confidence metadata rest hs' hrec h hh
    · exact collectHits_ok_confidence metadata rest hs hok h hh

theorem search_ok_confidence (vectors : List (List ℚ)) (metadata : List DiseaseRecord)
    (queryVec : List ℚ) (top_k : ℕ) (hits : List SearchHit)
    (hok : search_similar_diseases vectors metadata queryVec top_k = Except.ok hits) :
    ∀ h ∈ hits, h.confidence = hitConfidence h.distance :=
  collectHits_ok_confidence metadata _ hits hok

theorem diagnose_ok_mem (vectors : List (List ℚ)) (metadata : List DiseaseRecord)
    (queryVec : List ℚ) (top_k : ℕ) (ds : List Diagnosis)
    (hok : diagnose vectors metadata queryVec top_k = Except.ok ds) :
    ∀ dg ∈ ds, ∃ hits di m,
      search_similar_diseases vectors metadata queryVec top_k = Except.ok hits
      ∧ di ∈ sortDesc (dedup hits)
      ∧ get_complete_disease_info metadata di.disease = some m
      ∧ dg = { disease := m.disease, symptoms := m.symptoms, medicines := m.medicines,
               precautions := m.precautions, confidence := cappedConfidence di.confidence } := by
  intro dg hdg
  unfold diagnose at hok
  split at hok
  · cases hok
  · rename_i similar hsearch
    cases hok
    rcases List.mem_filterMap.mp hdg with ⟨di, hdi, hmap⟩
    rcases Option.map_eq_some'.mp hmap with ⟨m, hm, hgm⟩
    exact ⟨similar, di, m, hsearch, List.mem_of_mem_take hdi, hm, hgm.symm⟩

theorem faissSearch_nil (queryVec : List ℚ) (k : ℕ) :
    faissSearch [] queryVec k = List.replicate k (fltMax, -1) := by
  simp [faissSearch, sortPairs]

theorem pyIndex_neg_one {α : Type} : ∀ (l : List α), pyIndex l (-1) = l.getLast?
  | [] => rfl
  | a :: as => by
    have hlen : (((-1 : ℤ) + (a :: as).length)).toNat = as.length := by
      simp only [List.length_cons]
      omega
    unfold pyIndex
    rw [if_neg (by norm_num), if_pos (by simp only [List.length_cons]; omega)]
    rw [hlen, List.get?_eq_getElem?, List.getLast?_eq_getElem?]
    simp only [List.length_cons, Nat.add_sub_cancel]

theorem collectHits_nil_replicate (k : ℕ) (hk : 0 < k) :
    collectHits [] (List.replicate k (fltMax, (-1 : ℤ))) = Except.error () := by
  cases k with
  | zero => exact absurd hk (by norm_num)
  | succ n => rfl

theorem collectHits_cons_replicate (m0 : DiseaseRecord) (ms : List DiseaseRecord)
    (last : DiseaseRecord) (hlast : (m0 :: ms).getLast? = some last) :
    ∀ k : ℕ, collectHits (m0 :: ms) (List.replicate k (fltMax, (-1 : ℤ))) =
      Except.ok (List.replicate k
        { disease := last.disease, symptoms := last.symptoms,
          confidence := hitConfidence fltMax, distance := fltMax })
  | 0 => rfl
  | Nat.succ n => by
    show collectHits (m0 :: ms) ((fltMax, (-1 : ℤ)) :: List.replicate n (fltMax, -1)) = _
    simp only [collectHits]
    rw [if_pos (by omega), pyIndex_neg_one, hlast,
      collectHits_cons_replicate m0 ms last hlast n]
    rfl

theorem knowledge_base_zip : ∀ (records : List DiseaseRecord),
    ((records.flatMap fun r => doc_variations r).zip
      (records.flatMap fun r => (doc_variations r).map fun _ => r)) =
      records.flatMap (fun r => (doc_variations r).map (fun doc => (doc, r)))
  | [] => rfl
  | r :: rs => by
    simp only [List.flatMap_cons]
    rw [List.zip_append (by simp), knowledge_base_zip rs]
    congr 1
    have h := List.zip_map' id (fun _ => r) (doc_variations r)
    simpa using h

theorem knowledge_base_len : ∀ (records : List DiseaseRecord),
    (records.flatMap fun r => doc_variations r).length =
      (records.flatMap fun r => (doc_variations r).map fun _ => r).length
  | [] => rfl
  | r :: rs => by
    simp only [List.flatMap_cons, List.length_append, List.length_map]
    rw [knowledge_base_len rs]

/-- C1 (amended): against a zero-vector index the code never raises a
typed EmptyIndex error.  With empty metadata (the consistent store) the
search raises an untyped IndexError, because the FAISS padding index -1
passes the guard and the Python access to an empty list fails.  With
non-empty metadata every requested slot becomes a phantom hit copied
from the last metadata entry with confidence 0. -/
theorem C1_empty_index (metadata : List DiseaseRecord) (queryVec : List ℚ) (k : ℕ)
    (hk : 0 < k) :
    (metadata = [] → search_similar_diseases [] metadata queryVec k = Except.error ())
    ∧ (∀ last, metadata.getLast? = some last →
        search_similar_diseases [] metadata queryVec k =
          Except.ok (List.replicate k
            { disease := last.disease, symptoms := last.symptoms, confidence := 0,
              distance := fltMax })) := by
  constructor
  · intro hmeta
    subst hmeta
    unfold search_similar_diseases
    rw [faissSearch_nil]
    exact collectHits_nil_replicate k hk
  · intro last hlast
    unfold search_similar_diseases
    rw [faissSearch_nil]
    cases metadata with
    | nil => simp at hlast
    | cons m0 ms =>
      rw [collectHits_cons_replicate m0 ms last hlast k,
        show hitConfidence fltMax = 0 from by with_unfolding_all decide]

/-- C1 counterexample: a diagnose call against an index holding zero
vectors and one metadata entry does not fail with EmptyIndex; it
succeeds and returns a phantom Diagnosis, backed by no indexed document,
with confidence 0. -/
theorem C1_counterexample : diagnose [] [fluRecord] [0] 1 = Except.ok [diag0] := by
  with_unfolding_all rfl

theorem C1_witness :
    search_similar_diseases [] [] [0] 1 = Except.error ()
    ∧ search_similar_diseases [] [fluRecord] [0] 1 =
        Except.ok (List.replicate 1
          { disease := fluRecord.disease, symptoms := fluRecord.symptoms, confidence := 0,
            distance := fltMax }) :=
  ⟨(C1_empty_index [] [0] 1 (by norm_num)).1 rfl,
   (C1_empty_index [fluRecord] [0] 1 (by norm_num)).2 fluRecord rfl⟩

/-- C2: with one stored vector, one metadata entry, and k = 2, the
search does not return fewer than k results: the FAISS padding slot
(distance FLT_MAX, index -1) passes the guard at diagnosis.py line 46
and Python's negative indexing resolves it to the last metadata entry,
so the code returns 2 hits, the second a phantom copy with confidence 0.
This refutes the claim that exactly one hit per stored vector is
returned. -/
theorem C2_padding_bug :
    search_similar_diseases [[0]] [fluRecord] [0] 2 = Except.ok [hit100, phantomHit]
    ∧ [hit100, phantomHit].length = 2 :=
  ⟨by with_unfolding_all rfl, rfl⟩

/-- C3: the distance-to-confidence mapping used by the search is
max(0, 100 - d * 20); it is non-negative, at most 100 for non-negative
distances, exactly 0 for distances of at least 5, and monotonically
non-increasing in the distance; every hit of a successful search carries
exactly this confidence for its own distance; the final cap min(95, c)
keeps confidences of returned diagnoses in the interval from 0 to 95. -/
theorem C3_confidence :
    (∀ d : ℚ, hitConfidence d = max 0 (100 - d * 20))
    ∧ (∀ d : ℚ, 0 ≤ hitConfidence d)
    ∧ (∀ d : ℚ, 0 ≤ d → hitConfidence d ≤ 100)
    ∧ (∀ d : ℚ, 5 ≤ d → hitConfidence d = 0)
    ∧ (∀ d e : ℚ, d ≤ e → hitConfidence e ≤ hitConfidence d)
    ∧ (∀ vectors metadata queryVec top_k hits,
        search_similar_diseases vectors metadata queryVec top_k = Except.ok hits →
        ∀ h ∈ hits, h.confidence = hitConfidence h.distance)
    ∧ (∀ c : ℚ, 0 ≤ c → 0 ≤ cappedConfidence c ∧ cappedConfidence c ≤ 95)
    ∧ (∀ vectors metadata queryVec top_k ds,
        diagnose vectors metadata queryVec top_k = Except.ok ds →
        ∀ dg ∈ ds, 0 ≤ dg.confidence ∧ dg.confidence ≤ 95) := by
  refine ⟨fun d => rfl, fun d => le_max_left 0 _, ?_, ?_, ?_, search_ok_confidence, ?_, ?_⟩
  · intro d hd
    apply max_le (by norm_num)
    have h20 : 0 ≤ d * 20 := mul_nonneg hd (by norm_num)
    linarith
  · intro d hd
    apply max_eq_left
    have h100 : (5 : ℚ) * 20 ≤ d * 20 := mul_le_mul_of_nonneg_right hd (by norm_num)
    linarith
  · intro d e hde
    apply max_le_max (le_refl 0)
    have hmul : d * 20 ≤ e * 20 := mul_le_mul_of_nonneg_right hde (by norm_num)
    linarith
  · intro c hc
    exact ⟨le_min (by norm_num) hc, min_le_left _ _⟩
  · intro vectors metadata queryVec top_k ds hok dg hdg
    obtain ⟨hits, di, m, hsearch, hdi, hm, hgm⟩ :=
      diagnose_ok_mem vectors metadata queryVec top_k ds hok dg hdg
    have hdihits : di ∈ hits := by
      have h1 : di ∈ dedup hits := ((perm_sortDesc (dedup hits)).mem_iff).mp hdi
      rcases mem_foldl_dedupInsert di hits [] h1 with h2 | h2
      · simp at h2
      · exact h2
    have hconf : di.confidence = hitConfidence di.distance :=
      search_ok_confidence vectors metadata queryVec top_k hits hsearch di hdihits
    have hnn : 0 ≤ di.confidence := hconf ▸ hitConfidence_nonneg di.distance
    rw [hgm]
    exact ⟨le_min (by norm_num) hnn, min_le_left _ _⟩

theorem C3_witness :
    ((0 : ℚ) ≤ 2 ∧ hitConfidence 2 ≤ 100)
    ∧ ((5 : ℚ) ≤ 6 ∧ hitConfidence 6 = 0)
    ∧ ((1 : ℚ) ≤ 2 ∧ hitConfidence 2 ≤ hitConfidence 1)
    ∧ ((0 : ℚ) ≤ 80 ∧ 0 ≤ cappedConfidence 80 ∧ cappedConfidence 80 ≤ 95)
    ∧ hit100.confidence = hitConfidence hit100.distance
    ∧ (0 ≤ diag95.confidence ∧ diag95.confidence ≤ 95) := by
  refine ⟨⟨by norm_num, C3_confidence.2.2.1 2 (by norm_num)⟩,
          ⟨by norm_num, C3_confidence.2.2.2.1 6 (by norm_num)⟩,
          ⟨by norm_num, C3_confidence.2.2.2.2.1 1 2 (by norm_num)⟩,
          ⟨by norm_num, C3_confidence.2.2.2.2.2.2.1 80 (by norm_num)⟩,
          C3_confidence.2.2.2.2.2.1 [[0]] [fluRecord] [0] 1 [hit100]
            (by with_unfolding_all rfl) hit100 (by simp),
          C3_confidence.2.2.2.2.2.2.2 [[0]] [fluRecord] [0] 1 [diag95]
            (by with_unfolding_all rfl) diag95 (by simp)⟩

/-- C4: the dedup pass groups hits by case-sensitive equality of the
disease name: the output has pairwise distinct names, every output entry
is one of the input hits, every input name has a surviving entry, and
the survivor of a name carries a confidence at least that of every input
occurrence of the same name — only the maximum survives. -/
theorem C4_dedup (l : List SearchHit) :
    (dedup l).Pairwise (fun a b => a.disease ≠ b.disease)
    ∧ (∀ x ∈ dedup l, x ∈ l)
    ∧ (∀ g ∈ l, ∃ x ∈ dedup l, x.disease = g.disease ∧ g.confidence ≤ x.confidence)
    ∧ (∀ x ∈ dedup l, ∀ g ∈ l, g.disease = x.disease → g.confidence ≤ x.confidence) := by
  have hnodup : ((dedup l).map (fun x => x.disease)).Nodup :=
    nodup_foldl_dedupInsert l [] (by simp)
  have hpw : (dedup l).Pairwise (fun a b => a.disease ≠ b.disease) :=
    List.pairwise_map.mp hnodup
  have hsub : ∀ x ∈ dedup l, x ∈ l := by
    intro x hx
    rcases mem_foldl_dedupInsert x l [] hx with h1 | h1
    · simp at h1
    · exact h1
  have hcov : ∀ g ∈ l, ∃ x ∈ dedup l, x.disease = g.disease ∧ g.confidence ≤ x.confidence :=
    fun g hg => foldl_covers_mem l [] g hg
  refine ⟨hpw, hsub, hcov, ?_⟩
  intro x hx g hg hdg
  obtain ⟨y, hy, hyd, hyc⟩ := hcov g hg
  have hyx : y = x := List.inj_on_of_nodup_map hnodup hy hx (by rw [hyd, hdg])
  rw [← hyx]
  exact hyc

theorem C4_witness :
    dedup [hit80, hit40] = [hit80]
    ∧ (∃ x ∈ dedup [hit80, hit40], x.disease = hit40.disease
        ∧ hit40.confidence ≤ x.confidence) :=
  ⟨by with_unfolding_all decide,
   (C4_dedup [hit80, hit40]).2.2.1 hit40 (by simp)⟩

/-- C5: for every record the synthesizer emits between 1 and 4
documents, the comprehensive view always coming first; the
symptom-focused, treatment-focused and prevention-focused views are each
present exactly when the corresponding list is non-empty, so all three
non-empty gives exactly 4 documents and all three empty gives exactly
the singleton comprehensive view. -/
theorem C5_doc_synthesizer (r : DiseaseRecord) :
    (1 ≤ (doc_variations r).length ∧ (doc_variations r).length ≤ 4)
    ∧ (doc_variations r).head? = some (comprehensiveDoc r)
    ∧ (doc_variations r).length =
        1 + (if r.symptoms = [] then 0 else 1) + (if r.medicines = [] then 0 else 1)
          + (if r.precautions = [] then 0 else 1)
    ∧ (r.symptoms ≠ [] → symptomsDoc r ∈ doc_variations r)
    ∧ (r.medicines ≠ [] → treatmentDoc r ∈ doc_variations r)
    ∧ (r.precautions ≠ [] → preventionDoc r ∈ doc_variations r)
    ∧ (r.symptoms ≠ [] ∧ r.medicines ≠ [] ∧ r.precautions ≠ [] →
        (doc_variations r).length = 4)
    ∧ (r.symptoms = [] ∧ r.medicines = [] ∧ r.precautions = [] →
        doc_variations r = [comprehensiveDoc r]) := by
  by_cases hs : r.symptoms = [] <;> by_cases hm : r.medicines = [] <;>
    by_cases hp : r.precautions = [] <;>
    simp [doc_variations, hs, hm, hp]

theorem C5_witness :
    (doc_variations fluRecord).length = 4
    ∧ doc_variations emptyFlu = [comprehensiveDoc emptyFlu] :=
  ⟨(C5_doc_synthesizer fluRecord).2.2.2.2.2.2.1 (by simp [fluRecord]),
   (C5_doc_synthesizer emptyFlu).2.2.2.2.2.2.2 ⟨rfl, rfl, rfl⟩⟩

/-- C6: the ranking sort is by confidence descending (every element is
at least as confident as any later one), it is a permutation of its
input, and it is stable: for every confidence value the sublist of
elements carrying that value is exactly the corresponding sublist of the
input, so ties retain the relative order produced by the dedup step. -/
theorem C6_ranking (l : List SearchHit) :
    (sortDesc l).Pairwise (fun a b => b.confidence ≤ a.confidence)
    ∧ (sortDesc l).Perm l
    ∧ ∀ c : ℚ, (sortDesc l).filter (fun x => decide (x.confidence = c)) =
        l.filter (fun x => decide (x.confidence = c)) :=
  ⟨pairwise_sortDesc l, perm_sortDesc l, fun c => filter_sortDesc c l⟩

/-- C7 (amended): the load routine fails with the untyped
FileNotFoundError only when the base folder is missing, and with an
untyped file-read error when any of the three artifacts is missing; when
all three artifacts are present it succeeds unconditionally — no
size-consistency check between the three tables is performed on load. -/
theorem C7_amended (s : DiskStore) :
    (s.folderExists = false → load_faiss_index s = Except.error LoadError.folderNotFound)
    ∧ (s.folderExists = true →
        s.indexFile = none ∨ s.docsFile = none ∨ s.metadataFile = none →
        load_faiss_index s = Except.error LoadError.fileReadError)
    ∧ (∀ v d m, s.folderExists = true → s.indexFile = some v → s.docsFile = some d →
        s.metadataFile = some m →
        load_faiss_index s = Except.ok { vectors := v, documents := d, metadata := m }) := by
  refine ⟨?_, ?_, ?_⟩
  · intro h
    unfold load_faiss_index
    rw [h]
    simp
  · intro hfe hn
    unfold load_faiss_index
    rw [hfe]
    rcases hn with h | h | h <;> rw [h] <;>
      rcases hx : s.indexFile <;> rcases hd : s.docsFile <;> rcases hm : s.metadataFile <;> simp
  · intro v d m hfe hx hd hm
    unfold load_faiss_index
    rw [hfe, hx, hd, hm]
    simp

/-- C7 counterexample: a store whose three artifacts have pairwise
different sizes (2 vectors, 1 document, 0 metadata entries) loads
successfully instead of failing with IndexCorrupt: no size-consistency
check exists in the code. -/
theorem C7_counterexample :
    load_faiss_index inconsistentStore =
      Except.ok { vectors := [[0], [1]], documents := ["a"], metadata := [] }
    ∧ [[(0 : ℚ)], [1]].length = 2 ∧ ["a"].length = 1
    ∧ ([] : List DiseaseRecord).length = 0 :=
  ⟨rfl, rfl, rfl, rfl⟩

theorem C7_witness :
    load_faiss_index emptyDisk = Except.error LoadError.folderNotFound
    ∧ load_faiss_index folderOnlyDisk = Except.error LoadError.fileReadError
    ∧ load_faiss_index emptyTablesDisk =
        Except.ok { vectors := [], documents := [], metadata := [] } :=
  ⟨(C7_amended emptyDisk).1 rfl,
   (C7_amended folderOnlyDisk).2.1 rfl (Or.inl rfl),
   (C7_amended emptyTablesDisk).2.2 [] [] [] rfl rfl rfl rfl⟩

/-- C8 (amended): a build from zero valid records does not raise a typed
NoRecords error: the builder returns the untyped failure value False
(modelled `none`) and produces no index, and this untyped failure occurs
exactly when the record list is empty. -/
theorem C8_amended (encode : String → List ℚ) (records : List DiseaseRecord) :
    create_faiss_index encode records = none ↔ records = [] := by
  unfold create_faiss_index create_knowledge_base
  cases records with
  | nil => simp
  | cons r rs =>
    have hne : ((r :: rs).flatMap fun r => doc_variations r) ≠ [] := by
      simp only [List.flatMap_cons, ne_eq, List.append_eq_nil]
      intro h
      exact doc_variations_ne_nil r h.1
    simp [hne]
    intro h
    exact absurd h (doc_variations_ne_nil r)

/-- C8 counterexample: the zero-record build evaluates to the untyped
failure value (`return False`, modelled `none`); no typed NoRecords
error exists anywhere in the code. -/
theorem C8_counterexample : create_faiss_index (fun _ => [(0 : ℚ)]) [] = none := rfl

theorem C8_witness : create_faiss_index (fun _ => [(0 : ℚ)]) [] = none :=
  (C8_amended (fun _ => [(0 : ℚ)]) []).mpr rfl

/-- C9: every successful build satisfies the parallel-table invariant:
the vector, document and metadata tables have equal lengths, and
position is the join key — pairing the document table with the metadata
table reproduces, record by record, each synthesized document paired
with the record it was synthesized from. -/
theorem C9_parallel_tables (encode : String → List ℚ) (records : List DiseaseRecord)
    (store : IndexStore) (hok : create_faiss_index encode records = some store) :
    store.vectors.length = store.documents.length
    ∧ store.documents.length = store.metadata.length
    ∧ store.documents.zip store.metadata =
        records.flatMap (fun r => (doc_variations r).map (fun doc => (doc, r))) := by
  simp only [create_faiss_index, create_knowledge_base] at hok
  by_cases hrec : records = []
  · subst hrec
    simp at hok
  · rw [if_neg hrec] at hok
    split at hok
    · cases hok
    · cases hok
      exact ⟨by simp [List.length_map], knowledge_base_len records, knowledge_base_zip records⟩

theorem C9_witness :
    store0.vectors.length = store0.documents.length
    ∧ store0.documents.length = store0.metadata.length
    ∧ store0.documents.zip store0.metadata =
        [emptyFlu].flatMap (fun r => (doc_variations r).map (fun doc => (doc, r))) :=
  C9_parallel_tables encode0 [emptyFlu] store0 rfl

/-- C10: every Diagnosis returned by a successful diagnose call carries
exactly the disease, symptoms, medicines and precautions fields of the
earliest metadata entry whose stored name matches the diagnosis name
case-insensitively (the first hit of the linear scan); the witness shows
that two metadata entries whose names differ only in letter case both
resolve to the first one, yielding two Diagnoses with identical record
fields. -/
theorem C10_lookup (vectors : List (List ℚ)) (metadata : List DiseaseRecord)
    (queryVec : List ℚ) (top_k : ℕ) (ds : List Diagnosis)
    (hok : diagnose vectors metadata queryVec top_k = Except.ok ds) :
    ∀ dg ∈ ds, ∃ m : DiseaseRecord,
      metadata.find? (fun x => x.disease.toLower == dg.disease.toLower) = some m
      ∧ dg.disease = m.disease ∧ dg.symptoms = m.symptoms
      ∧ dg.medicines = m.medicines ∧ dg.precautions = m.precautions := by
  intro dg hdg
  obtain ⟨hits, di, m, _, _, hm, hgm⟩ :=
    diagnose_ok_mem vectors metadata queryVec top_k ds hok dg hdg
  refine ⟨m, ?_, by rw [hgm], by rw [hgm], by rw [hgm], by rw [hgm]⟩
  unfold get_complete_disease_info at hm
  have hpred := List.find?_some hm
  have heq : m.disease.toLower = di.disease.toLower := by simpa using hpred
  have hdgd : dg.disease = m.disease := by rw [hgm]
  have hsame : dg.disease.toLower = di.disease.toLower := by rw [hdgd, heq]
  simp only [hsame]
  exact hm

theorem C10_witness :
    diagnose [[0], [1]] [fluRecord, fluUpper] [0] 2 = Except.ok [diag95, diag80]
    ∧ diag95.disease = diag80.disease ∧ diag95.symptoms = diag80.symptoms
    ∧ diag95.medicines = diag80.medicines ∧ diag95.precautions = diag80.precautions
    ∧ (∃ m : DiseaseRecord,
        [fluRecord, fluUpper].find? (fun x => x.disease.toLower == diag80.disease.toLower) =
          some m
        ∧ diag80.disease = m.disease ∧ diag80.symptoms = m.symptoms
        ∧ diag80.medicines = m.medicines ∧ diag80.precautions = m.precautions) :=
  ⟨by with_unfolding_all rfl, rfl, rfl, rfl, rfl,
   C10_lookup [[0], [1]] [fluRecord, fluUpper] [0] 2 [diag95, diag80]
     (by with_unfolding_all rfl) diag80 (by simp)⟩

end HealthAssist
